import Mathlib

/-!
Verification of the model-selection and cross-validation workflow of the
PDSG NLP workshop notebooks.  The notebooks orchestrate a hyperparameter
grid search (over an SGD classifier resp. a Tfidf+MultinomialNB pipeline)
and validate the best model with stratified k-fold cross validation.

Definitions below are either direct embeddings of the notebook code
(toxicity labeling, `print_prediction_results`, `cross_validate_classifier`)
or, where the deciding routine lives in the external ML library rather than
in this repository's source (grid enumeration, best-candidate selection,
fold splitting), models built from the specification's description of those
components, each marked `Modelled from the spec:` in its doc comment.
-/

namespace PDSG

/-- Embeds the toxicity labeling step of the second notebook:
`scoredcomments["toxicity"] = (scoredcomments["median_score"] < 0).astype(int)`.
The label is `1` when the median annotator score is strictly negative and
`0` otherwise. -/
def toxicityLabel (median_score : ℚ) : Nat :=
  if median_score < 0 then 1 else 0

/-- Modelled from the spec: the FoldSplit strategy (the notebooks call the
external library's `StratifiedKFold`, whose implementation is not in this
repository).  The model partitions the sample index set `{0, …, n-1}` into
`k` test groups, sample `i` landing in group `i % k`. -/
def testSet (k n j : Nat) : Finset Nat :=
  (Finset.range n).filter (fun i => i % k = j)

/-- Modelled from the spec: the list of the `k` test index sets produced by a
FoldSplit over `n` samples. -/
def foldTestSets (k n : Nat) : List (Finset Nat) :=
  (List.range k).map (testSet k n)

lemma mem_testSet_iff (k n j i : Nat) :
    i ∈ testSet k n j ↔ i < n ∧ i % k = j := by
  simp [testSet]

/-- Modelled from the spec: the Grid Search Engine's candidate enumeration
(the notebooks delegate it to the external library's `GridSearchCV`).  The
grid is an ordered association of parameter names to candidate-value
sequences; the enumeration lists every assignment of one value per
parameter, first parameter varying slowest. -/
def enumerateCandidates {α : Type} : List (String × List α) → List (List (String × α))
  | [] => [[]]
  | p :: rest =>
      p.2.flatMap (fun v => (enumerateCandidates rest).map (fun asgn => (p.1, v) :: asgn))

/-- CandidateAssignment membership predicate: an assignment picks, for each
grid entry in order, that entry's name paired with one of its values. -/
def IsChoiceOf {α : Type} (grid : List (String × List α)) (a : List (String × α)) : Prop :=
  List.Forall₂ (fun p q => q.1 = p.1 ∧ q.2 ∈ p.2) grid a

lemma length_enumerateCandidates {α : Type} (g : List (String × List α)) :
    (enumerateCandidates g).length = (g.map (fun p => p.2.length)).prod := by
  induction g with
  | nil => simp [enumerateCandidates]
  | cons p rest ih =>
      simp only [enumerateCandidates, List.length_flatMap, List.map_cons,
        List.prod_cons, Function.comp_def, List.length_map, ih]
      rw [List.map_const', List.sum_replicate, smul_eq_mul]

lemma mem_enumerateCandidates {α : Type} (g : List (String × List α))
    (a : List (String × α)) :
    a ∈ enumerateCandidates g ↔ IsChoiceOf g a := by
  induction g generalizing a with
  | nil =>
      simp [enumerateCandidates, IsChoiceOf, List.forall₂_nil_left_iff]
  | cons p rest ih =>
      simp only [enumerateCandidates, List.mem_flatMap, List.mem_map, IsChoiceOf,
        List.forall₂_cons_left_iff]
      constructor
      · rintro ⟨v, hv, b, hb, rfl⟩
        exact ⟨(p.1, v), b, ⟨rfl, hv⟩, (ih b).mp hb, rfl⟩
      · rintro ⟨q, b, ⟨hq1, hq2⟩, hb, rfl⟩
        refine ⟨q.2, hq2, b, (ih b).mpr hb, ?_⟩
        cases q
        simp_all

lemma nodup_enumerateCandidates {α : Type} (g : List (String × List α))
    (h : ∀ p ∈ g, p.2.Nodup) :
    (enumerateCandidates g).Nodup := by
  induction g with
  | nil => simp [enumerateCandidates]
  | cons p rest ih =>
      have hrest : (enumerateCandidates rest).Nodup :=
        ih (fun q hq => h q (List.mem_cons_of_mem p hq))
      rw [show enumerateCandidates (p :: rest) =
          p.2.flatMap (fun v => (enumerateCandidates rest).map
            (fun asgn => (p.1, v) :: asgn)) from rfl]
      refine List.nodup_flatMap.mpr ⟨?_, ?_⟩
      · intro v _
        exact hrest.map (fun a b hab => by simpa using hab)
      · refine (h p (List.mem_cons_self p rest)).imp ?_
        intro v w hvw x hx hx2
        rcases List.mem_map.mp hx with ⟨b, _, rfl⟩
        rcases List.mem_map.mp hx2 with ⟨b2, _, hbe⟩
        apply hvw
        have := (List.cons_eq_cons.mp hbe.symm).1
        exact (Prod.mk.injEq _ _ _ _ ▸ this).2.symm ▸ rfl

/-- The notebook's SGD grid: 4 penalty values and 5 n_iter values. -/
def grid20 : List (String × List String) :=
  [("penalty", ["none", "l2", "l1", "elasticnet"]),
   ("n_iter", ["5", "10", "20", "50", "80"])]

/-- A pipeline grid with value-sequence lengths 4, 3, 3, 2, 4 (the fully
uncommented Tfidf parameter block of the second notebook). -/
def grid288 : List (String × List String) :=
  [("tfidf__max_df", ["0.1", "0.25", "0.5", "0.75"]),
   ("tfidf__min_df", ["1", "2", "5"]),
   ("tfidf__analyzer", ["word", "char", "char_wb"]),
   ("tfidf__use_idf", ["True", "False"]),
   ("tfidf__max_features", ["None", "5000", "10000", "50000"])]

/-- C1: for every HyperparameterGrid whose m parameters have candidate-value
sequences of lengths n1..nm, a single grid-search invocation evaluates
exactly the product n1×...×nm distinct CandidateAssignments, each exactly
once: the enumeration has length equal to the product, has no duplicates,
and contains exactly the choices from the Cartesian product of the grid's
value sequences. -/
theorem c1_grid_enumerates_cartesian_product {α : Type}
    (grid : List (String × List α)) (hnd : ∀ p ∈ grid, p.2.Nodup) :
    (enumerateCandidates grid).length = (grid.map (fun p => p.2.length)).prod
    ∧ (enumerateCandidates grid).Nodup
    ∧ ∀ a, a ∈ enumerateCandidates grid ↔ IsChoiceOf grid a :=
  ⟨length_enumerateCandidates grid, nodup_enumerateCandidates grid hnd,
    fun a => mem_enumerateCandidates grid a⟩

/-- Witness for C1 at the notebook's 4×5 grid (20 candidates) and at the
4×3×3×2×4 pipeline grid (288 candidates). -/
theorem c1_witness :
    ((∀ p ∈ grid20, p.2.Nodup)
      ∧ ((enumerateCandidates grid20).length
            = (grid20.map (fun p => p.2.length)).prod
        ∧ (enumerateCandidates grid20).Nodup
        ∧ ∀ a, a ∈ enumerateCandidates grid20 ↔ IsChoiceOf grid20 a))
    ∧ (grid20.map (fun p => p.2.length)).prod = 20
    ∧ (grid288.map (fun p => p.2.length)).prod = 288 :=
  ⟨⟨by decide, c1_grid_enumerates_cartesian_product grid20 (by decide)⟩,
    by decide, by decide⟩

/-- Modelled from the spec: the maximum fold-averaged accuracy of a
ScoreRecord table (the notebooks read it back as the external library's
best mean test score). -/
def maxScore : List ℚ → ℚ
  | [] => 0
  | [x] => x
  | x :: y :: xs => max x (maxScore (y :: xs))

/-- Modelled from the spec: BestResult selection over a ScoreRecord table —
the index of the first record attaining the maximum score (ties broken by
first-encountered order in the enumeration). -/
def bestIdx : List ℚ → Nat
  | [] => 0
  | [_] => 0
  | x :: y :: xs => if x < maxScore (y :: xs) then bestIdx (y :: xs) + 1 else 0

lemma bestIdx_spec (scores : List ℚ) (h : scores ≠ []) :
    bestIdx scores < scores.length
    ∧ scores.getD (bestIdx scores) 0 = maxScore scores
    ∧ (∀ j < scores.length, scores.getD j 0 ≤ maxScore scores)
    ∧ (∀ j < bestIdx scores, scores.getD j 0 < maxScore scores) := by
  induction scores with
  | nil => exact absurd rfl h
  | cons x tail ih =>
      cases tail with
      | nil =>
          refine ⟨by simp [bestIdx], by simp [bestIdx, maxScore], ?_, ?_⟩
          · intro j hj
            have hj0 : j = 0 := Nat.lt_one_iff.mp (by simpa using hj)
            subst hj0
            simp [maxScore]
          · intro j hj
            simp [bestIdx] at hj
      | cons y xs =>
          obtain ⟨ih1, ih2, ih3, ih4⟩ := ih (by simp)
          have hmax : maxScore (x :: y :: xs) = max x (maxScore (y :: xs)) := rfl
          by_cases hx : x < maxScore (y :: xs)
          · have hb : bestIdx (x :: y :: xs) = bestIdx (y :: xs) + 1 := by
              simp [bestIdx, hx]
            have hM : max x (maxScore (y :: xs)) = maxScore (y :: xs) :=
              max_eq_right (le_of_lt hx)
            refine ⟨?_, ?_, ?_, ?_⟩
            · rw [hb]
              simpa using Nat.succ_lt_succ ih1
            · rw [hb, hmax, hM]
              simpa using ih2
            · intro j hj
              rw [hmax, hM]
              cases j with
              | zero => simpa using le_of_lt hx
              | succ j =>
                  simp only [List.getD_cons_succ]
                  exact ih3 j (by simpa using hj)
            · intro j hj
              rw [hb] at hj
              rw [hmax, hM]
              cases j with
              | zero => simpa using hx
              | succ j =>
                  simp only [List.getD_cons_succ]
                  exact ih4 j (Nat.lt_of_succ_lt_succ hj)
          · have hb : bestIdx (x :: y :: xs) = 0 := by
              simp [bestIdx, hx]
            have hM : max x (maxScore (y :: xs)) = x :=
              max_eq_left (not_lt.mp hx)
            refine ⟨?_, ?_, ?_, ?_⟩
            · rw [hb]
              simp
            · rw [hb, hmax, hM]
              simp
            · intro j hj
              rw [hmax, hM]
              cases j with
              | zero => simp
              | succ j =>
                  simp only [List.getD_cons_succ]
                  exact le_trans (ih3 j (by simpa using hj)) (not_lt.mp hx)
            · intro j hj
              rw [hb] at hj
              exact absurd hj (Nat.not_lt_zero j)

/-- C2: for every completed grid search the BestResult's fold-averaged
accuracy is ≥ the accuracy of every other ScoreRecord in the table, and on
an exact tie the earlier-enumerated candidate is returned: the selected
index is in range, attains the table's maximum, every record is ≤ that
maximum, and every record strictly before the selected index is strictly
below it. -/
theorem c2_best_is_max_first (scores : List ℚ) (h : scores ≠ []) :
    bestIdx scores < scores.length
    ∧ scores.getD (bestIdx scores) 0 = maxScore scores
    ∧ (∀ j < scores.length, scores.getD j 0 ≤ maxScore scores)
    ∧ (∀ j < bestIdx scores, scores.getD j 0 < maxScore scores) :=
  bestIdx_spec scores h

/-- Witness for C2 at a concrete table with a tie on the maximum: the first
of the tied records (index 1) is selected. -/
theorem c2_witness :
    (bestIdx [(1 : ℚ), 3, 2, 3] < ([(1 : ℚ), 3, 2, 3]).length
      ∧ ([(1 : ℚ), 3, 2, 3]).getD (bestIdx [(1 : ℚ), 3, 2, 3]) 0
          = maxScore [(1 : ℚ), 3, 2, 3]
      ∧ (∀ j < ([(1 : ℚ), 3, 2, 3]).length,
          ([(1 : ℚ), 3, 2, 3]).getD j 0 ≤ maxScore [(1 : ℚ), 3, 2, 3])
      ∧ (∀ j < bestIdx [(1 : ℚ), 3, 2, 3],
          ([(1 : ℚ), 3, 2, 3]).getD j 0 < maxScore [(1 : ℚ), 3, 2, 3]))
    ∧ bestIdx [(1 : ℚ), 3, 2, 3] = 1 :=
  ⟨c2_best_is_max_first [(1 : ℚ), 3, 2, 3] (by simp), by
    norm_num [bestIdx, maxScore]⟩

/-- Modelled from the spec: per-candidate outcome table of a grid search —
one entry per CandidateAssignment in enumeration order, `Option.none` when
that candidate's fit failed (a FitFailure record), `Option.some q` when its
fold-averaged accuracy is `q`.  `selectBest` picks the first best successful
record, skipping failures. -/
def selectBest : List (Option ℚ) → Option (Nat × ℚ)
  | [] => Option.none
  | Option.none :: rest =>
      (selectBest rest).map (fun b => (b.1 + 1, b.2))
  | Option.some s :: rest =>
      match selectBest rest with
      | Option.some b =>
          if s < b.2 then Option.some (b.1 + 1, b.2) else Option.some (0, s)
      | Option.none => Option.some (0, s)

/-- Modelled from the spec: the search's overall result — the BestResult
among successful candidates, or an Exhausted error when every candidate in
the grid failed to fit. -/
def gridSearchResult (rs : List (Option ℚ)) : Except String (Nat × ℚ) :=
  match selectBest rs with
  | Option.some b => Except.ok b
  | Option.none => Except.error "ExhaustedError"

lemma selectBest_eq_none_iff (rs : List (Option ℚ)) :
    selectBest rs = Option.none ↔ ∀ r ∈ rs, r = Option.none := by
  induction rs with
  | nil => simp [selectBest]
  | cons r rest ih =>
      cases r with
      | none =>
          cases h : selectBest rest with
          | none => simp [selectBest, h, ← ih, h]
          | some b =>
              have hne : ¬∀ r ∈ rest, r = Option.none := by
                intro hall
                rw [← ih] at hall
                rw [hall] at h
                exact Option.noConfusion h
              simp [selectBest, h, hne]
      | some s =>
          cases h : selectBest rest with
          | none => simp [selectBest, h]
          | some b => by_cases hs : s < b.2 <;> simp [selectBest, h, hs]

lemma selectBest_mem (rs : List (Option ℚ)) (i : Nat) (s : ℚ)
    (h : selectBest rs = Option.some (i, s)) :
    rs.get? i = Option.some (Option.some s) := by
  induction rs generalizing i s with
  | nil => exact Option.noConfusion h
  | cons r rest ih =>
      cases r with
      | none =>
          cases hr : selectBest rest with
          | none => rw [selectBest, hr] at h; exact Option.noConfusion h
          | some b =>
              rw [selectBest, hr] at h
              dsimp only [Option.map] at h
              have h2 : (b.1 + 1, b.2) = (i, s) := Option.some.inj h
              have hi : i = b.1 + 1 := (Prod.ext_iff.mp h2).1.symm
              have hs : s = b.2 := (Prod.ext_iff.mp h2).2.symm
              subst hi
              subst hs
              simpa using ih b.1 b.2 (hr.trans (congrArg Option.some rfl))
      | some s0 =>
          cases hr : selectBest rest with
          | none =>
              rw [selectBest, hr] at h
              dsimp only at h
              have h2 : ((0 : Nat), s0) = (i, s) := Option.some.inj h
              have hi : i = 0 := (Prod.ext_iff.mp h2).1.symm
              have hs : s = s0 := (Prod.ext_iff.mp h2).2.symm
              subst hi
              subst hs
              simp
          | some b =>
              rw [selectBest, hr] at h
              dsimp only at h
              by_cases hcmp : s0 < b.2
              · rw [if_pos hcmp] at h
                have h2 : (b.1 + 1, b.2) = (i, s) := Option.some.inj h
                have hi : i = b.1 + 1 := (Prod.ext_iff.mp h2).1.symm
                have hs : s = b.2 := (Prod.ext_iff.mp h2).2.symm
                subst hi
                subst hs
                simpa using ih b.1 b.2 hr
              · rw [if_neg hcmp] at h
                have h2 : ((0 : Nat), s0) = (i, s) := Option.some.inj h
                have hi : i = 0 := (Prod.ext_iff.mp h2).1.symm
                have hs : s = s0 := (Prod.ext_iff.mp h2).2.symm
                subst hi
                subst hs
                simp

lemma selectBest_ge (rs : List (Option ℚ)) (i : Nat) (s : ℚ)
    (h : selectBest rs = Option.some (i, s)) :
    ∀ j q, rs.get? j = Option.some (Option.some q) → q ≤ s := by
  induction rs generalizing i s with
  | nil => exact Option.noConfusion h
  | cons r rest ih =>
      intro j q hj
      cases r with
      | none =>
          cases hr : selectBest rest with
          | none => rw [selectBest, hr] at h; exact Option.noConfusion h
          | some b =>
              rw [selectBest, hr] at h
              dsimp only [Option.map] at h
              have h2 : (b.1 + 1, b.2) = (i, s) := Option.some.inj h
              have hs : s = b.2 := (Prod.ext_iff.mp h2).2.symm
              subst hs
              cases j with
              | zero => simp at hj
              | succ j => exact ih b.1 b.2 hr j q (by simpa using hj)
      | some s0 =>
          cases hr : selectBest rest with
          | none =>
              rw [selectBest, hr] at h
              dsimp only at h
              have h2 : ((0 : Nat), s0) = (i, s) := Option.some.inj h
              have hs : s = s0 := (Prod.ext_iff.mp h2).2.symm
              subst hs
              cases j with
              | zero =>
                  simp at hj
                  exact le_of_eq hj.symm
              | succ j =>
                  exfalso
                  have hall := (selectBest_eq_none_iff rest).mp hr
                  have hmem : Option.some q ∈ rest := by
                    have hj2 := hj
                    simp only [List.get?_cons_succ] at hj2
                    exact List.get?_mem hj2
                  exact Option.noConfusion (hall _ hmem)
          | some b =>
              rw [selectBest, hr] at h
              dsimp only at h
              by_cases hcmp : s0 < b.2
              · rw [if_pos hcmp] at h
                have h2 : (b.1 + 1, b.2) = (i, s) := Option.some.inj h
                have hs : s = b.2 := (Prod.ext_iff.mp h2).2.symm
                subst hs
                cases j with
                | zero =>
                    simp at hj
                    exact hj ▸ le_of_lt hcmp
                | succ j => exact ih b.1 b.2 hr j q (by simpa using hj)
              · rw [if_neg hcmp] at h
                have h2 : ((0 : Nat), s0) = (i, s) := Option.some.inj h
                have hs : s = s0 := (Prod.ext_iff.mp h2).2.symm
                subst hs
                cases j with
                | zero =>
                    simp at hj
                    exact le_of_eq hj.symm
                | succ j =>
                    have hle := ih b.1 b.2 hr j q (by simpa using hj)
                    exact le_trans hle (not_lt.mp hcmp)

/-- C3: if the fit of some CandidateAssignment fails, its record is a
failure (not a score) and is excluded from best-result selection, the
search continues over the remaining candidates, and the search as a whole
fails with an Exhausted error exactly when every candidate fails: the
result is the Exhausted error iff all records are failures, and any
returned BestResult points at a successful record whose score bounds every
successful record's score. -/
theorem c3_failure_semantics (rs : List (Option ℚ)) :
    (gridSearchResult rs = Except.error "ExhaustedError"
      ↔ ∀ r ∈ rs, r = Option.none)
    ∧ (∀ i s, gridSearchResult rs = Except.ok (i, s) →
        rs.get? i = Option.some (Option.some s)
        ∧ ∀ j q, rs.get? j = Option.some (Option.some q) → q ≤ s) := by
  constructor
  · rw [← selectBest_eq_none_iff]
    unfold gridSearchResult
    cases h : selectBest rs <;> simp [h]
  · intro i s hok
    unfold gridSearchResult at hok
    cases h : selectBest rs with
    | none => rw [h] at hok; exact Except.noConfusion hok
    | some b =>
        rw [h] at hok
        have hb : b = (i, s) := Except.ok.injEq .. ▸ hok
        subst hb
        exact ⟨selectBest_mem rs i s h, selectBest_ge rs i s h⟩

/-- Witness for C3 at a concrete outcome table with two failures and two
successes: the search does not raise, the best points at the successful
record with score 3, and an all-failure table is Exhausted. -/
theorem c3_witness :
    ((gridSearchResult [Option.none, Option.some (2 : ℚ), Option.none,
        Option.some 3] = Except.error "ExhaustedError"
      ↔ ∀ r ∈ [Option.none, Option.some (2 : ℚ), Option.none, Option.some 3],
          r = Option.none)
    ∧ (∀ i s, gridSearchResult [Option.none, Option.some (2 : ℚ), Option.none,
          Option.some 3] = Except.ok (i, s) →
        ([Option.none, Option.some (2 : ℚ), Option.none,
            Option.some 3]).get? i = Option.some (Option.some s)
        ∧ ∀ j q, ([Option.none, Option.some (2 : ℚ), Option.none,
            Option.some 3]).get? j = Option.some (Option.some q) → q ≤ s))
    ∧ (gridSearchResult [Option.none, Option.none]
        = Except.error "ExhaustedError") :=
  ⟨c3_failure_semantics [Option.none, Option.some (2 : ℚ), Option.none,
      Option.some 3],
    (c3_failure_semantics [Option.none, Option.none]).1.mpr (by simp)⟩

/-- Number of positions at which predicted and actual labels agree — embeds
`(y_est == y_target).sum()`. -/
def countEq : List Nat → List Nat → Nat
  | a :: as, b :: bs => (if a = b then 1 else 0) + countEq as bs
  | _, _ => 0

/-- Embeds the per-fold accuracy computation of the notebooks: the fraction
of correct predictions, `(y_est == y_target).sum() / y_est.size`. -/
def foldAccuracy (y_est y_target : List Nat) : ℚ :=
  (countEq y_est y_target : ℚ) / (y_est.length : ℚ)

/-- Modelled from the spec: a CandidateAssignment's ScoreRecord scoring —
the k fold accuracies are accumulated in evaluation order (running sum and
fold count) and the record's score is the accumulated sum over the count. -/
def scoreAccum (folds : List (List Nat × List Nat)) : ℚ × Nat :=
  folds.foldl (fun acc f => (acc.1 + foldAccuracy f.1 f.2, acc.2 + 1)) (0, 0)

/-- Modelled from the spec: the fold-averaged accuracy recorded in a
candidate's ScoreRecord. -/
def recordScore (folds : List (List Nat × List Nat)) : ℚ :=
  (scoreAccum folds).1 / ((scoreAccum folds).2 : ℚ)

lemma scoreAccum_loop (folds : List (List Nat × List Nat)) (a : ℚ) (n : Nat) :
    folds.foldl (fun acc f => (acc.1 + foldAccuracy f.1 f.2, acc.2 + 1)) (a, n)
      = (a + (folds.map (fun f => foldAccuracy f.1 f.2)).sum, n + folds.length) := by
  induction folds generalizing a n with
  | nil => simp
  | cons f fs ih =>
      simp only [List.foldl_cons, List.map_cons, List.sum_cons, List.length_cons, ih]
      refine Prod.ext ?_ ?_
      · ring
      · omega

lemma scoreAccum_eq (folds : List (List Nat × List Nat)) :
    scoreAccum folds
      = ((folds.map (fun f => foldAccuracy f.1 f.2)).sum, folds.length) := by
  unfold scoreAccum
  rw [scoreAccum_loop]
  simp

/-- C4: for every CandidateAssignment whose k fold evaluations all succeed,
the score recorded in its ScoreRecord equals the arithmetic mean of its k
per-fold accuracies, where each fold accuracy is the fraction of correct
predictions on that fold's test indices. -/
theorem c4_score_is_mean_of_fold_accuracies
    (folds : List (List Nat × List Nat)) (k : Nat) (hk : folds.length = k) :
    recordScore folds
      = (folds.map (fun f => foldAccuracy f.1 f.2)).sum / (k : ℚ)
    ∧ ∀ f ∈ folds,
        foldAccuracy f.1 f.2 = (countEq f.1 f.2 : ℚ) / (f.1.length : ℚ) := by
  subst hk
  refine ⟨?_, fun f _ => rfl⟩
  unfold recordScore
  rw [scoreAccum_eq]

/-- Witness for C4 at a concrete candidate with k = 2 folds of accuracies
2/3 and 1/2, whose recorded score is their mean 7/12. -/
theorem c4_witness :
    (recordScore [([1, 0, 1], [1, 1, 1]), ([0, 0], [0, 1])]
        = (([([1, 0, 1], [1, 1, 1]), ([0, 0], [0, 1])]).map
            (fun f => foldAccuracy f.1 f.2)).sum / (2 : ℚ)
      ∧ ∀ f ∈ [([1, 0, 1], [1, 1, 1]), ([0, 0], [0, 1])],
          foldAccuracy f.1 f.2 = (countEq f.1 f.2 : ℚ) / (f.1.length : ℚ))
    ∧ recordScore [([1, 0, 1], [1, 1, 1]), ([0, 0], [0, 1])] = 7 / 12 :=
  ⟨c4_score_is_mean_of_fold_accuracies
      [([1, 0, 1], [1, 1, 1]), ([0, 0], [0, 1])] 2 rfl,
    by norm_num [recordScore, scoreAccum, foldAccuracy, countEq]⟩

/-- Embeds the NumPy mask `y_est[y_target == c]`: the predicted labels at
the positions whose actual label is `c`. -/
def selectByTarget (c : Nat) (y_est y_target : List Nat) : List Nat :=
  ((y_est.zip y_target).filter (fun p => p.2 == c)).map (fun p => p.1)

/-- Embeds `y_est[y_target == c].size`: the number of test samples of class
`c` (the denominator of the per-class accuracy in
`print_prediction_results`). -/
def countClass (c : Nat) (y_est y_target : List Nat) : Nat :=
  (selectByTarget c y_est y_target).length

/-- Embeds `(y_est[y_target == c] == c).sum()`: the number of class-`c`
samples predicted correctly. -/
def countClassCorrect (c : Nat) (y_est y_target : List Nat) : Nat :=
  ((selectByTarget c y_est y_target).filter (fun e => e == c)).length

/-- Models a NumPy floating-point ratio of two counts: `Option.none` stands
for the NaN produced by a zero-denominator division, `Option.some q` for
the finite value `q`. -/
def npDiv (a b : Nat) : Option ℚ :=
  if b = 0 then Option.none else Option.some ((a : ℚ) / (b : ℚ))

/-- Embeds the per-class accuracy printed by `print_prediction_results`:
`(y_est[y_target == c] == c).sum() / y_est[y_target == c].size`. -/
def classAccuracy (c : Nat) (y_est y_target : List Nat) : Option ℚ :=
  npDiv (countClassCorrect c y_est y_target) (countClass c y_est y_target)

/-- Embeds the overall accuracy printed by `print_prediction_results` and
appended to the fold-accuracy list by `cross_validate_classifier`:
`(y_est == y_target).sum() / y_est.size`. -/
def overallAccuracy (y_est y_target : List Nat) : Option ℚ :=
  npDiv (countEq y_est y_target) y_est.length

/-- Models NumPy summation with NaN propagation. -/
def npSum : List (Option ℚ) → Option ℚ
  | [] => Option.some 0
  | Option.none :: _ => Option.none
  | Option.some a :: xs => (npSum xs).map (fun b => a + b)

/-- Models `np.mean` with NaN propagation; the mean of an empty collection
is NaN. -/
def npMean (xs : List (Option ℚ)) : Option ℚ :=
  match npSum xs with
  | Option.some s =>
      if xs.length = 0 then Option.none
      else Option.some (s / (xs.length : ℚ))
  | Option.none => Option.none

/-- Embeds `cross_validate_classifier`'s aggregate output
`np.mean(accuracy)`: per-fold overall accuracies collected into a list and
averaged.  Each fold is given by its (predicted labels, actual labels)
pair on the fold's test indices. -/
def reportedMeanAccuracy (folds : List (List Nat × List Nat)) : Option ℚ :=
  npMean (folds.map (fun f => overallAccuracy f.1 f.2))

/-- Embeds the reporter's fold count: `StratifiedKFold(n_splits=5,
shuffle=True)` in `cross_validate_classifier`. -/
def reporterNumSplits : Nat := 5

/-- The grid search's internal fold count: `GridSearchCV` is constructed
without a `cv` argument and the notebook's recorded run output reports
"Fitting 3 folds" per candidate. -/
def gridSearchNumFolds : Nat := 3

lemma npSum_overall (folds : List (List Nat × List Nat))
    (h : ∀ f ∈ folds, f.1.length ≠ 0) :
    npSum (folds.map (fun f => overallAccuracy f.1 f.2))
      = Option.some ((folds.map (fun f => foldAccuracy f.1 f.2)).sum) := by
  induction folds with
  | nil => simp [npSum]
  | cons f fs ih =>
      have hf : f.1.length ≠ 0 := h f (List.mem_cons_self f fs)
      have hfs := ih (fun g hg => h g (List.mem_cons_of_mem f hg))
      have hacc : overallAccuracy f.1 f.2 = Option.some (foldAccuracy f.1 f.2) := by
        simp [overallAccuracy, npDiv, hf, foldAccuracy]
      simp only [List.map_cons, List.sum_cons, hacc, npSum, hfs, Option.map]

lemma reportedMeanAccuracy_eq (folds : List (List Nat × List Nat))
    (hne : folds ≠ []) (h : ∀ f ∈ folds, f.1.length ≠ 0) :
    reportedMeanAccuracy folds
      = Option.some ((folds.map (fun f => foldAccuracy f.1 f.2)).sum
          / (folds.length : ℚ)) := by
  unfold reportedMeanAccuracy npMean
  rw [npSum_overall folds h]
  have hlen : folds.length ≠ 0 := by
    simpa [List.length_eq_zero] using hne
  simp [hlen]

/-- C8: the Cross-Validation Reporter evaluates the model on 5 stratified
folds (a larger count than the grid search's internal 3 folds) and outputs,
for each fold, the per-class accuracy (fraction of each class correctly
predicted) and the overall accuracy (fraction of correct predictions), and
outputs as aggregate the arithmetic mean of the per-fold overall
accuracies. -/
theorem c8_reporter_outputs (folds : List (List Nat × List Nat))
    (h5 : folds.length = reporterNumSplits)
    (hne : ∀ f ∈ folds, f.1.length ≠ 0) :
    reporterNumSplits = 5
    ∧ gridSearchNumFolds < reporterNumSplits
    ∧ (∀ f ∈ folds, overallAccuracy f.1 f.2
        = Option.some ((countEq f.1 f.2 : ℚ) / (f.1.length : ℚ)))
    ∧ (∀ f ∈ folds, ∀ c, countClass c f.1 f.2 ≠ 0 →
        classAccuracy c f.1 f.2
          = Option.some ((countClassCorrect c f.1 f.2 : ℚ)
              / (countClass c f.1 f.2 : ℚ)))
    ∧ reportedMeanAccuracy folds
        = Option.some ((folds.map (fun f => foldAccuracy f.1 f.2)).sum
            / (reporterNumSplits : ℚ)) := by
  have hnil : folds ≠ [] := by
    intro hempty
    rw [hempty] at h5
    exact absurd h5.symm (by simp [reporterNumSplits])
  refine ⟨rfl, by norm_num [gridSearchNumFolds, reporterNumSplits], ?_, ?_, ?_⟩
  · intro f hf
    simp [overallAccuracy, npDiv, hne f hf]
  · intro f _ c hc
    simp [classAccuracy, npDiv, hc]
  · rw [← h5]
    exact reportedMeanAccuracy_eq folds hnil hne

/-- Witness for C8 at a concrete 5-fold run. -/
theorem c8_witness :
    reporterNumSplits = 5
    ∧ gridSearchNumFolds < reporterNumSplits
    ∧ (∀ f ∈ [([0], [0]), ([1], [1]), ([0], [1]), ([1], [0]), ([0], [0])],
        overallAccuracy f.1 f.2
          = Option.some ((countEq f.1 f.2 : ℚ) / (f.1.length : ℚ)))
    ∧ (∀ f ∈ [([0], [0]), ([1], [1]), ([0], [1]), ([1], [0]), ([0], [0])],
        ∀ c, countClass c f.1 f.2 ≠ 0 →
        classAccuracy c f.1 f.2
          = Option.some ((countClassCorrect c f.1 f.2 : ℚ)
              / (countClass c f.1 f.2 : ℚ)))
    ∧ reportedMeanAccuracy
          [([0], [0]), ([1], [1]), ([0], [1]), ([1], [0]), ([0], [0])]
        = Option.some
            ((([([0], [0]), ([1], [1]), ([0], [1]), ([1], [0]),
                ([0], [0])]).map (fun f => foldAccuracy f.1 f.2)).sum
              / (reporterNumSplits : ℚ)) :=
  c8_reporter_outputs
    [([0], [0]), ([1], [1]), ([0], [1]), ([1], [0]), ([0], [0])]
    rfl (by decide)

/-- C7: if a cross-validation fold's test set contains zero samples of some
class, that fold's per-class score is the undefined value (the NaN-free
record in the model) and is excluded from the aggregation, which averages
only per-fold overall accuracies: the reported mean accuracy stays a
defined rational number. -/
theorem c7_missing_class_no_mean_corruption
    (folds : List (List Nat × List Nat)) (f0 : List Nat × List Nat)
    (hmem : f0 ∈ folds) (c : Nat)
    (hc : countClass c f0.1 f0.2 = 0)
    (hne : ∀ f ∈ folds, f.1.length ≠ 0) :
    classAccuracy c f0.1 f0.2 = Option.none
    ∧ reportedMeanAccuracy folds
        = Option.some ((folds.map (fun f => foldAccuracy f.1 f.2)).sum
            / (folds.length : ℚ)) := by
  constructor
  · simp [classAccuracy, npDiv, hc]
  · exact reportedMeanAccuracy_eq folds (List.ne_nil_of_mem hmem) hne

/-- Witness for C7 at a run whose first fold has no sample of class 1. -/
theorem c7_witness :
    classAccuracy 1 ([0, 0], [0, 0]).1 ([0, 0], [0, 0]).2 = Option.none
    ∧ reportedMeanAccuracy [([0, 0], [0, 0]), ([0, 1], [0, 1])]
        = Option.some
            ((([([0, 0], [0, 0]), ([0, 1], [0, 1])]).map
                (fun f => foldAccuracy f.1 f.2)).sum
              / (([([0, 0], [0, 0]), ([0, 1], [0, 1])]).length : ℚ)) :=
  c7_missing_class_no_mean_corruption
    [([0, 0], [0, 0]), ([0, 1], [0, 1])] ([0, 0], [0, 0])
    (by decide) 1 (by decide) (by decide)

/-- C9: in the toxic-comment labeling step, the derived categorical toxicity
label equals 1 exactly when the comment's median annotator toxicity score is
strictly less than 0, and equals 0 otherwise. -/
theorem c9_toxicity_label_threshold (m : ℚ) :
    (toxicityLabel m = 1 ↔ m < 0) ∧ (toxicityLabel m = 0 ↔ 0 ≤ m) := by
  by_cases h : m < 0 <;> simp [toxicityLabel, h, le_of_not_lt, not_le.mpr]

/-- Witness for C9 at the concrete median score -1/2. -/
theorem c9_witness :
    (toxicityLabel (-1/2) = 1 ↔ (-1/2 : ℚ) < 0)
    ∧ (toxicityLabel (-1/2) = 0 ↔ (0 : ℚ) ≤ -1/2) :=
  c9_toxicity_label_threshold (-1/2)

/-- C5: for every k ≥ 2 and every sample set of N indices, the FoldSplit
produces exactly k test index sets whose union is the full set of N indices
and whose pairwise intersections are empty: every sample appears in exactly
one test set across the k folds. -/
theorem c5_foldsplit_partition (k n : Nat) (hk : 2 ≤ k) :
    (foldTestSets k n).length = k
    ∧ (Finset.range k).biUnion (testSet k n) = Finset.range n
    ∧ (∀ j1 ∈ Finset.range k, ∀ j2 ∈ Finset.range k, j1 ≠ j2 →
        testSet k n j1 ∩ testSet k n j2 = ∅)
    ∧ ∀ i < n, ∃! j, j < k ∧ i ∈ testSet k n j := by
  have hk0 : 0 < k := lt_of_lt_of_le (by norm_num) hk
  refine ⟨by simp [foldTestSets], ?_, ?_, ?_⟩
  · ext i
    simp only [Finset.mem_biUnion, Finset.mem_range, mem_testSet_iff]
    constructor
    · rintro ⟨j, _, hin, _⟩
      exact hin
    · intro hin
      exact ⟨i % k, Nat.mod_lt i hk0, hin, rfl⟩
  · intro j1 _ j2 _ hne
    ext i
    simp only [Finset.mem_inter, mem_testSet_iff, Finset.not_mem_empty,
      iff_false]
    rintro ⟨⟨_, h1⟩, ⟨_, h2⟩⟩
    exact hne (h1 ▸ h2)
  · intro i hin
    refine ⟨i % k, ⟨Nat.mod_lt i hk0, (mem_testSet_iff k n _ i).mpr ⟨hin, rfl⟩⟩, ?_⟩
    rintro j ⟨_, hj⟩
    exact ((mem_testSet_iff k n j i).mp hj).2.symm

/-- Witness for C5 at k = 2 folds over N = 5 samples. -/
theorem c5_witness :
    (foldTestSets 2 5).length = 2
    ∧ (Finset.range 2).biUnion (testSet 2 5) = Finset.range 5
    ∧ (∀ j1 ∈ Finset.range 2, ∀ j2 ∈ Finset.range 2, j1 ≠ j2 →
        testSet 2 5 j1 ∩ testSet 2 5 j2 = ∅)
    ∧ ∀ i < 5, ∃! j, j < 2 ∧ i ∈ testSet 2 5 j :=
  c5_foldsplit_partition 2 5 (by norm_num)

/-- Modelled from the spec: fixed-seed shuffling — a deterministic
permutation of the n sample indices keyed by the seed. -/
def shuffleIdx (seed n : Nat) : List Nat := (List.range n).rotate seed

/-- Modelled from the spec: one full grid-search run — enumerate the grid's
candidates, evaluate each (through the supplied fit-and-score primitive) on
the seed-shuffled sample indices, collect the ScoreRecord table, and select
the BestResult (first index attaining the maximum score, and that score). -/
def searchRun (seed n : Nat) (grid : List (String × List String))
    (score : List (String × String) → List Nat → ℚ) :
    List ℚ × Nat × ℚ :=
  let table := (enumerateCandidates grid).map
    (fun cand => score cand (shuffleIdx seed n))
  (table, bestIdx table, maxScore table)

/-- C6: two runs of the grid search with an unchanged HyperparameterGrid,
unchanged sample data and fit/score behaviour, and the same fixed seed for
shuffling produce an identical ScoreRecord table and return the same
BestResult. -/
theorem c6_search_deterministic (seed n : Nat)
    (grid : List (String × List String))
    (score : List (String × String) → List Nat → ℚ)
    (r1 r2 : List ℚ × Nat × ℚ)
    (h1 : r1 = searchRun seed n grid score)
    (h2 : r2 = searchRun seed n grid score) :
    r1.1 = r2.1 ∧ r1.2 = r2.2 := by
  subst h1
  subst h2
  exact ⟨rfl, rfl⟩

/-- Witness for C6: two runs over the notebook's 4×5 grid with seed 7 agree
on the table and the best result. -/
theorem c6_witness :
    (searchRun 7 3 grid20
        (fun cand idx => (cand.length : ℚ) * (idx.sum : ℚ))).1
      = (searchRun 7 3 grid20
          (fun cand idx => (cand.length : ℚ) * (idx.sum : ℚ))).1
    ∧ (searchRun 7 3 grid20
        (fun cand idx => (cand.length : ℚ) * (idx.sum : ℚ))).2
      = (searchRun 7 3 grid20
          (fun cand idx => (cand.length : ℚ) * (idx.sum : ℚ))).2 :=
  c6_search_deterministic 7 3 grid20
    (fun cand idx => (cand.length : ℚ) * (idx.sum : ℚ)) _ _ rfl rfl

/-- The fitted state of the (mutable) classifier object passed to
`cross_validate_classifier`: either whatever state it had before the call,
or fitted on a particular list of training indices. -/
inductive ClfState where
  | prior : ClfState
  | fittedOn : List Nat → ClfState
deriving DecidableEq

/-- Embeds the in-place fitting of `cross_validate_classifier`'s loop: each
iteration calls `clf.fit(X_text[train_index], y[train_index])`, replacing
the classifier object's fitted state with one trained on that fold's
training indices; the function returns without restoring or re-fitting the
classifier. -/
def cvFinalState (clf : ClfState) (splits : List (List Nat × List Nat)) :
    ClfState :=
  splits.foldl (fun _ s => ClfState.fittedOn s.1) clf

lemma cvFinalState_last (clf : ClfState)
    (splits : List (List Nat × List Nat)) (lastSplit : List Nat × List Nat)
    (h : splits.getLast? = Option.some lastSplit) :
    cvFinalState clf splits = ClfState.fittedOn lastSplit.1 := by
  induction splits generalizing clf with
  | nil => exact Option.noConfusion h
  | cons s rest ih =>
      cases rest with
      | nil =>
          have hs : s = lastSplit := by
            simpa [List.getLast?] using h
          subst hs
          rfl
      | cons t ts =>
          have h2 : (t :: ts).getLast? = Option.some lastSplit := by
            simpa [List.getLast?_cons_cons] using h
          exact ih (ClfState.fittedOn s.1) h2

/-- C10: `cross_validate_classifier` fits the classifier object passed to
it in place on each successive fold's training subset; after the call
returns, the caller's model is left fitted on the training portion of the
final fold only — it is neither restored to its prior state nor re-fit on
the full sample set. -/
theorem c10_classifier_left_fitted_on_last_fold (clf : ClfState)
    (splits : List (List Nat × List Nat)) (lastSplit : List Nat × List Nat)
    (h : splits.getLast? = Option.some lastSplit) :
    cvFinalState clf splits = ClfState.fittedOn lastSplit.1
    ∧ (∀ full : List Nat, lastSplit.1 ≠ full →
        cvFinalState clf splits ≠ ClfState.fittedOn full)
    ∧ (clf ≠ ClfState.fittedOn lastSplit.1 → cvFinalState clf splits ≠ clf) := by
  have hmain := cvFinalState_last clf splits lastSplit h
  refine ⟨hmain, ?_, ?_⟩
  · intro full hfull hcontra
    rw [hmain] at hcontra
    exact hfull (ClfState.fittedOn.inj hcontra)
  · intro hclf hcontra
    rw [hmain] at hcontra
    exact hclf hcontra.symm

/-- Witness for C10 at a concrete 2-fold run over samples {0, 1, 2}: after
the call the previously unfitted classifier is fitted on the second fold's
training indices [0, 2], not restored and not fitted on the full index set
[0, 1, 2]. -/
theorem c10_witness :
    cvFinalState ClfState.prior [([0, 1], [2]), ([0, 2], [1])]
        = ClfState.fittedOn ([0, 2] : List Nat)
    ∧ cvFinalState ClfState.prior [([0, 1], [2]), ([0, 2], [1])]
        ≠ ClfState.fittedOn ([0, 1, 2] : List Nat)
    ∧ cvFinalState ClfState.prior [([0, 1], [2]), ([0, 2], [1])]
        ≠ ClfState.prior :=
  ⟨(c10_classifier_left_fitted_on_last_fold ClfState.prior
      [([0, 1], [2]), ([0, 2], [1])] ([0, 2], [1]) rfl).1,
    (c10_classifier_left_fitted_on_last_fold ClfState.prior
      [([0, 1], [2]), ([0, 2], [1])] ([0, 2], [1]) rfl).2.1 [0, 1, 2]
      (by decide),
    (c10_classifier_left_fitted_on_last_fold ClfState.prior
      [([0, 1], [2]), ([0, 2], [1])] ([0, 2], [1]) rfl).2.2 (by decide)⟩

end PDSG
